import Mathlib

/-!
Verification of the weighted Aalen-Johansen estimator
(src/weightedstate/survival.py) against its specification.

The Python source builds a polars DataFrame from three aligned series
(times, reals, weights), groups by time, aggregates weighted event counts,
and derives cause-specific hazards, survival and cumulative incidence by
columnar operations (reverse cumulative sum, cumulative product, shift with
fill, cumulative sums).  We embed the pipeline shallowly over exact
rationals: each DataFrame column becomes a `List ℚ` (or `List ℤ` for the
time column), and each polars primitive becomes the corresponding list
combinator.  A separate embedding over an IEEE-style value type (finite
rational / signed infinity / NaN) captures the float division-by-zero
behaviour at rows whose risk set is empty.
-/

namespace WeightedState

/-- One input observation: (time, event code, weight), mirroring one row of
the DataFrame built from the three aligned series. -/
abbrev Obs := ℤ × ℤ × ℚ

/-- The `times` field of an observation. -/
def obsTime (o : Obs) : ℤ := o.1

/-- The `reals` field (event code) of an observation. -/
def obsReal (o : Obs) : ℤ := o.2.1

/-- The `weights` field of an observation. -/
def obsWeight (o : Obs) : ℚ := o.2.2

/-- Distinct time values in ascending order: the row index produced by
`df.group_by("times") ... .sort("times")`. -/
def timesCol (obs : List Obs) : List ℤ :=
  ((obs.map obsTime).dedup).insertionSort (· ≤ ·)

/-- Weighted count of observations at time `t` with event code `k`:
`pl.when(pl.col("reals") == k).then(pl.col("weights")).otherwise(0).sum()`
evaluated over the group of rows whose time equals `t`. -/
def countAt (k : ℤ) (obs : List Obs) (t : ℤ) : ℚ :=
  (obs.map (fun o =>
    if obsTime o = t then (if obsReal o = k then obsWeight o else 0) else 0)).sum

/-- The `count_0` column. -/
def count_0 (obs : List Obs) : List ℚ := (timesCol obs).map (countAt 0 obs)

/-- The `count_1` column. -/
def count_1 (obs : List Obs) : List ℚ := (timesCol obs).map (countAt 1 obs)

/-- The `count_2` column. -/
def count_2 (obs : List Obs) : List ℚ := (timesCol obs).map (countAt 2 obs)

/-- The `events_at_times` column: `count_0 + count_1 + count_2`. -/
def events_at_times (obs : List Obs) : List ℚ :=
  List.zipWith (· + ·) (List.zipWith (· + ·) (count_0 obs) (count_1 obs)) (count_2 obs)

/-- Reverse cumulative sum (`cum_sum(reverse=True)`): entry `i` is the sum
of entries `i .. end` of the input column. -/
def cumsumRev : List ℚ → List ℚ
  | [] => []
  | x :: xs => (x + xs.sum) :: cumsumRev xs

/-- The `at_risk` column. -/
def at_risk (obs : List Obs) : List ℚ := cumsumRev (events_at_times obs)

/-- The `csh_1` column: `count_1 / at_risk`. -/
def csh_1 (obs : List Obs) : List ℚ :=
  List.zipWith (· / ·) (count_1 obs) (at_risk obs)

/-- The `csh_2` column: `count_2 / at_risk`. -/
def csh_2 (obs : List Obs) : List ℚ :=
  List.zipWith (· / ·) (count_2 obs) (at_risk obs)

/-- The `conditional_survival` column: `1 - csh_1 - csh_2`. -/
def conditional_survival (obs : List Obs) : List ℚ :=
  List.zipWith (fun a b => 1 - a - b) (csh_1 obs) (csh_2 obs)

/-- Cumulative product with explicit accumulator: entry `i` of
`cumprodAux a l` is `a * l[0] * ... * l[i]`.  `cum_prod` is `cumprodAux 1`. -/
def cumprodAux (a : ℚ) : List ℚ → List ℚ
  | [] => []
  | x :: xs => (a * x) :: cumprodAux (a * x) xs

/-- The `overall_survival` column: `cum_prod` of `conditional_survival`. -/
def overall_survival (obs : List Obs) : List ℚ :=
  cumprodAux 1 (conditional_survival obs)

/-- `shift(1, fill_value=p)` on a column: drop the last entry and prepend
the fill value (length is preserved; the empty column stays empty). -/
def shiftFill (p : ℚ) (l : List ℚ) : List ℚ := (p :: l).dropLast

/-- The `previous_overall_survival` column: `overall_survival` shifted by
one row with fill value 1. -/
def previous_overall_survival (obs : List Obs) : List ℚ :=
  shiftFill 1 (overall_survival obs)

/-- The `transition_prob_1` column: `csh_1 * previous_overall_survival`. -/
def transition_prob_1 (obs : List Obs) : List ℚ :=
  List.zipWith (· * ·) (csh_1 obs) (previous_overall_survival obs)

/-- The `transition_prob_2` column: `csh_2 * previous_overall_survival`. -/
def transition_prob_2 (obs : List Obs) : List ℚ :=
  List.zipWith (· * ·) (csh_2 obs) (previous_overall_survival obs)

/-- Cumulative sum with explicit accumulator: entry `i` of `cumsumAux a l`
is `a + l[0] + ... + l[i]`.  `cum_sum` is `cumsumAux 0`. -/
def cumsumAux (a : ℚ) : List ℚ → List ℚ
  | [] => []
  | x :: xs => (a + x) :: cumsumAux (a + x) xs

/-- The `cif_1` column: `cum_sum` of `transition_prob_1`. -/
def cif_1 (obs : List Obs) : List ℚ := cumsumAux 0 (transition_prob_1 obs)

/-- The `cif_2` column: `cum_sum` of `transition_prob_2`. -/
def cif_2 (obs : List Obs) : List ℚ := cumsumAux 0 (transition_prob_2 obs)

/-- The result DataFrame of `weighted_aalen_johansen`: its columns in the
order they are created by the pipeline (group keys first, then the
aggregations, then each `with_columns` batch in list order). -/
structure AJTable where
  times : List ℤ
  count_0 : List ℚ
  count_1 : List ℚ
  count_2 : List ℚ
  events_at_times : List ℚ
  at_risk : List ℚ
  csh_1 : List ℚ
  csh_2 : List ℚ
  conditional_survival : List ℚ
  overall_survival : List ℚ
  previous_overall_survival : List ℚ
  transition_prob_1 : List ℚ
  transition_prob_2 : List ℚ
  cif_1 : List ℚ
  cif_2 : List ℚ
deriving DecidableEq, Repr

/-- Assemble the full result table from the observation list. -/
def ajTable (obs : List Obs) : AJTable :=
  { times := timesCol obs
    count_0 := count_0 obs
    count_1 := count_1 obs
    count_2 := count_2 obs
    events_at_times := events_at_times obs
    at_risk := at_risk obs
    csh_1 := csh_1 obs
    csh_2 := csh_2 obs
    conditional_survival := conditional_survival obs
    overall_survival := overall_survival obs
    previous_overall_survival := previous_overall_survival obs
    transition_prob_1 := transition_prob_1 obs
    transition_prob_2 := transition_prob_2 obs
    cif_1 := cif_1 obs
    cif_2 := cif_2 obs }

/-- Zip the three aligned input series into the observation rows of the
DataFrame. -/
def mkObs (times reals : List ℤ) (weights : List ℚ) : List Obs :=
  times.zip (reals.zip weights)

/-- `weighted_aalen_johansen(times, reals, weights)`.  Building the
DataFrame from series of differing lengths raises a polars `ShapeError`;
we model that library behaviour as an `Except.error` returned before any
aggregation takes place. -/
def weighted_aalen_johansen (times reals : List ℤ) (weights : List ℚ) :
    Except String AJTable :=
  if times.length = reals.length ∧ reals.length = weights.length then
    Except.ok (ajTable (mkObs times reals weights))
  else
    Except.error "lengths of columns in the DataFrame differ"

/-- Column names of the result table, in creation order (taken from the
alias strings in the source pipeline). -/
def ajColumnNames : List String :=
  ["times", "count_0", "count_1", "count_2", "events_at_times", "at_risk",
   "csh_1", "csh_2", "conditional_survival", "overall_survival",
   "previous_overall_survival", "transition_prob_1", "transition_prob_2",
   "cif_1", "cif_2"]

/-- Modelled from the spec: the column names enumerated in section 3 of the
specification, in the field order listed there. -/
def specColumnNames : List String :=
  ["time", "count_0", "count_1", "count_2", "events_at_time", "at_risk",
   "csh_1", "csh_2", "conditional_survival", "overall_survival",
   "previous_overall_survival", "transition_prob_1", "transition_prob_2",
   "cif_1", "cif_2"]

/-! ### Generic list lemmas for the polars combinators -/

theorem zipWith_map_same {α β γ δ : Type} (h : β → γ → δ) (f : α → β) (g : α → γ) :
    ∀ l : List α, List.zipWith h (l.map f) (l.map g) = l.map (fun x => h (f x) (g x))
  | [] => rfl
  | x :: xs => by
    simp only [List.map_cons, List.zipWith_cons_cons, zipWith_map_same h f g xs]

theorem mem_zipWith {α β γ : Type} {f : α → β → γ} {x : γ} :
    ∀ {l₁ : List α} {l₂ : List β}, x ∈ List.zipWith f l₁ l₂ →
      ∃ (i : ℕ) (h1 : i < l₁.length) (h2 : i < l₂.length), x = f (l₁.get ⟨i, h1⟩) (l₂.get ⟨i, h2⟩)
  | [], _, hx => by simp at hx
  | _ :: _, [], hx => by simp at hx
  | a :: as, b :: bs, hx => by
    rcases List.mem_cons.mp hx with h | h
    · exact ⟨0, by simp, by simp, h⟩
    · obtain ⟨i, h1, h2, hi⟩ := mem_zipWith h
      exact ⟨i + 1, by simpa using h1, by simpa using h2, hi⟩

theorem cumsumRev_length : ∀ l : List ℚ, (cumsumRev l).length = l.length
  | [] => rfl
  | _ :: xs => by simp [cumsumRev, cumsumRev_length xs]

theorem cumprodAux_length (a : ℚ) : ∀ l : List ℚ, (cumprodAux a l).length = l.length
  | [] => rfl
  | _ :: xs => by simp [cumprodAux, cumprodAux_length _ xs]

theorem cumsumAux_length (a : ℚ) : ∀ l : List ℚ, (cumsumAux a l).length = l.length
  | [] => rfl
  | _ :: xs => by simp [cumsumAux, cumsumAux_length _ xs]

theorem shiftFill_length (p : ℚ) (l : List ℚ) : (shiftFill p l).length = l.length := by
  simp [shiftFill]

theorem cumsumRev_get :
    ∀ (l : List ℚ) (i : ℕ) (h : i < (cumsumRev l).length),
      (cumsumRev l).get ⟨i, h⟩ = (l.drop i).sum
  | [], i, h => by simp [cumsumRev] at h
  | x :: xs, 0, h => by simp [cumsumRev]
  | x :: xs, i + 1, h => by
    simpa [cumsumRev] using cumsumRev_get xs i (by simpa [cumsumRev] using h)

/-! ### Lengths of the columns -/

theorem events_eq_map (obs : List Obs) :
    events_at_times obs =
      (timesCol obs).map (fun t => countAt 0 obs t + countAt 1 obs t + countAt 2 obs t) := by
  unfold events_at_times count_0 count_1 count_2
  rw [zipWith_map_same, zipWith_map_same]

theorem count_0_length (obs : List Obs) : (count_0 obs).length = (timesCol obs).length := by
  simp [count_0]

theorem count_1_length (obs : List Obs) : (count_1 obs).length = (timesCol obs).length := by
  simp [count_1]

theorem count_2_length (obs : List Obs) : (count_2 obs).length = (timesCol obs).length := by
  simp [count_2]

theorem events_at_times_length (obs : List Obs) :
    (events_at_times obs).length = (timesCol obs).length := by
  simp [events_eq_map]

theorem at_risk_length (obs : List Obs) : (at_risk obs).length = (timesCol obs).length := by
  simp [at_risk, cumsumRev_length, events_at_times_length]

theorem csh_1_length (obs : List Obs) : (csh_1 obs).length = (timesCol obs).length := by
  simp [csh_1, count_1_length, at_risk_length]

theorem csh_2_length (obs : List Obs) : (csh_2 obs).length = (timesCol obs).length := by
  simp [csh_2, count_2_length, at_risk_length]

theorem conditional_survival_length (obs : List Obs) :
    (conditional_survival obs).length = (timesCol obs).length := by
  simp [conditional_survival, csh_1_length, csh_2_length]

theorem overall_survival_length (obs : List Obs) :
    (overall_survival obs).length = (timesCol obs).length := by
  simp [overall_survival, cumprodAux_length, conditional_survival_length]

theorem previous_overall_survival_length (obs : List Obs) :
    (previous_overall_survival obs).length = (timesCol obs).length := by
  simp [previous_overall_survival, shiftFill_length, overall_survival_length]

theorem transition_prob_1_length (obs : List Obs) :
    (transition_prob_1 obs).length = (timesCol obs).length := by
  simp [transition_prob_1, csh_1_length, previous_overall_survival_length]

theorem transition_prob_2_length (obs : List Obs) :
    (transition_prob_2 obs).length = (timesCol obs).length := by
  simp [transition_prob_2, csh_2_length, previous_overall_survival_length]

theorem cif_1_length (obs : List Obs) : (cif_1 obs).length = (timesCol obs).length := by
  simp [cif_1, cumsumAux_length, transition_prob_1_length]

theorem cif_2_length (obs : List Obs) : (cif_2 obs).length = (timesCol obs).length := by
  simp [cif_2, cumsumAux_length, transition_prob_2_length]

/-! ### A fused scan computing survival and both CIFs in one pass

`ajStep p c1 c2 hz` consumes the list of hazard pairs `(csh_1, csh_2)` and
produces, row by row, the triple `(overall_survival, cif_1, cif_2)`,
starting from accumulated survival `p` and accumulated incidences `c1`,
`c2`.  It is proved equal to the columnar pipeline and carries the
partition-of-unity invariant. -/
def ajStep : ℚ → ℚ → ℚ → List (ℚ × ℚ) → List (ℚ × ℚ × ℚ)
  | _, _, _, [] => []
  | p, c1, c2, ab :: rest =>
    (p * (1 - ab.1 - ab.2), c1 + ab.1 * p, c2 + ab.2 * p) ::
      ajStep (p * (1 - ab.1 - ab.2)) (c1 + ab.1 * p) (c2 + ab.2 * p) rest

/-- Exclusive cumulative product: entry `i` is `p * l[0] * ... * l[i-1]`. -/
def exclProd (p : ℚ) : List ℚ → List ℚ
  | [] => []
  | x :: xs => p :: exclProd (p * x) xs

theorem zipWith_eq_map_zip {α β γ : Type} (f : α → β → γ) :
    ∀ (a : List α) (b : List β),
      List.zipWith f a b = (a.zip b).map (fun p => f p.1 p.2)
  | [], _ => by simp
  | _ :: _, [] => by simp
  | x :: xs, y :: ys => by
    simp [List.zip_cons_cons, zipWith_eq_map_zip f xs ys]

theorem shiftFill_cumprodAux : ∀ (l : List ℚ) (p : ℚ),
    shiftFill p (cumprodAux p l) = exclProd p l
  | [], p => rfl
  | x :: xs, p => by
    have ih := shiftFill_cumprodAux xs (p * x)
    simp only [cumprodAux, exclProd, shiftFill] at ih ⊢
    cases h : cumprodAux (p * x) xs with
    | nil =>
      have : xs = [] := by
        have := cumprodAux_length (p * x) xs
        rw [h] at this
        exact List.length_eq_zero.mp this.symm
      simp [this, exclProd]
    | cons y ys =>
      rw [h] at ih
      simp only [List.dropLast_cons₂] at ih ⊢
      rw [ih]

theorem ajStep_fst : ∀ (l : List (ℚ × ℚ)) (p c1 c2 : ℚ),
    (ajStep p c1 c2 l).map (fun x => x.1) =
      cumprodAux p (l.map (fun ab => 1 - ab.1 - ab.2))
  | [], _, _, _ => rfl
  | ab :: rest, p, c1, c2 => by
    simp only [ajStep, List.map_cons, cumprodAux]
    rw [ajStep_fst rest]

theorem ajStep_cif1 : ∀ (l : List (ℚ × ℚ)) (p c1 c2 : ℚ),
    (ajStep p c1 c2 l).map (fun x => x.2.1) =
      cumsumAux c1 (List.zipWith (· * ·) (l.map (fun ab => ab.1))
        (exclProd p (l.map (fun ab => 1 - ab.1 - ab.2))))
  | [], _, _, _ => rfl
  | ab :: rest, p, c1, c2 => by
    simp only [ajStep, List.map_cons, exclProd, List.zipWith_cons_cons, cumsumAux]
    rw [ajStep_cif1 rest]

theorem ajStep_cif2 : ∀ (l : List (ℚ × ℚ)) (p c1 c2 : ℚ),
    (ajStep p c1 c2 l).map (fun x => x.2.2) =
      cumsumAux c2 (List.zipWith (· * ·) (l.map (fun ab => ab.2))
        (exclProd p (l.map (fun ab => 1 - ab.1 - ab.2))))
  | [], _, _, _ => rfl
  | ab :: rest, p, c1, c2 => by
    simp only [ajStep, List.map_cons, exclProd, List.zipWith_cons_cons, cumsumAux]
    rw [ajStep_cif2 rest]

theorem ajStep_sum_eq_one : ∀ (l : List (ℚ × ℚ)) (p c1 c2 : ℚ),
    p + c1 + c2 = 1 → ∀ x ∈ ajStep p c1 c2 l, x.1 + x.2.1 + x.2.2 = 1
  | [], _, _, _, _, x, hx => by simp [ajStep] at hx
  | ab :: rest, p, c1, c2, h, x, hx => by
    have hstep : p * (1 - ab.1 - ab.2) + (c1 + ab.1 * p) + (c2 + ab.2 * p) = 1 := by
      calc p * (1 - ab.1 - ab.2) + (c1 + ab.1 * p) + (c2 + ab.2 * p)
          = p + c1 + c2 := by ring
        _ = 1 := h
    rcases List.mem_cons.mp hx with hx | hx
    · rw [hx]; exact hstep
    · exact ajStep_sum_eq_one rest _ _ _ hstep x hx

/-- The hazard-pair list feeding the fused scan. -/
def hazPairs (obs : List Obs) : List (ℚ × ℚ) := (csh_1 obs).zip (csh_2 obs)

theorem hazPairs_fst (obs : List Obs) : (hazPairs obs).map (fun ab => ab.1) = csh_1 obs := by
  apply List.map_fst_zip
  rw [csh_1_length, csh_2_length]

theorem hazPairs_snd (obs : List Obs) : (hazPairs obs).map (fun ab => ab.2) = csh_2 obs := by
  apply List.map_snd_zip
  rw [csh_1_length, csh_2_length]

theorem conditional_survival_eq_map (obs : List Obs) :
    conditional_survival obs = (hazPairs obs).map (fun ab => 1 - ab.1 - ab.2) := by
  rw [conditional_survival, hazPairs, zipWith_eq_map_zip]

theorem overall_survival_eq_scan (obs : List Obs) :
    overall_survival obs = (ajStep 1 0 0 (hazPairs obs)).map (fun x => x.1) := by
  rw [overall_survival, conditional_survival_eq_map, ajStep_fst]

theorem previous_overall_survival_eq_excl (obs : List Obs) :
    previous_overall_survival obs =
      exclProd 1 ((hazPairs obs).map (fun ab => 1 - ab.1 - ab.2)) := by
  rw [previous_overall_survival, overall_survival, conditional_survival_eq_map,
    shiftFill_cumprodAux]

theorem cif_1_eq_scan (obs : List Obs) :
    cif_1 obs = (ajStep 1 0 0 (hazPairs obs)).map (fun x => x.2.1) := by
  rw [cif_1, transition_prob_1, previous_overall_survival_eq_excl, ajStep_cif1,
    ← hazPairs_fst obs]

theorem cif_2_eq_scan (obs : List Obs) :
    cif_2 obs = (ajStep 1 0 0 (hazPairs obs)).map (fun x => x.2.2) := by
  rw [cif_2, transition_prob_2, previous_overall_survival_eq_excl, ajStep_cif2,
    ← hazPairs_snd obs]

/-! ### The table depends only on the distinct times and the weighted counts -/

theorem timesCol_eq_of_mem_iff {o1 o2 : List Obs}
    (h : ∀ s, s ∈ o1.map obsTime ↔ s ∈ o2.map obsTime) : timesCol o1 = timesCol o2 := by
  apply List.eq_of_perm_of_sorted (r := (· ≤ ·))
  · have hmid : (o1.map obsTime).dedup.Perm (o2.map obsTime).dedup := by
      rw [List.perm_ext_iff_of_nodup (List.nodup_dedup _) (List.nodup_dedup _)]
      intro a
      simp only [List.mem_dedup]
      exact h a
    exact (List.perm_insertionSort _ _).trans
      (hmid.trans (List.perm_insertionSort _ _).symm)
  · exact List.sorted_insertionSort _ _
  · exact List.sorted_insertionSort _ _

theorem ajTable_congr {o1 o2 : List Obs} (ht : timesCol o1 = timesCol o2)
    (hc : ∀ k, countAt k o1 = countAt k o2) : ajTable o1 = ajTable o2 := by
  have h0 : count_0 o1 = count_0 o2 := by rw [count_0, count_0, ht, hc 0]
  have h1 : count_1 o1 = count_1 o2 := by rw [count_1, count_1, ht, hc 1]
  have h2 : count_2 o1 = count_2 o2 := by rw [count_2, count_2, ht, hc 2]
  have hev : events_at_times o1 = events_at_times o2 := by
    rw [events_at_times, events_at_times, h0, h1, h2]
  have har : at_risk o1 = at_risk o2 := by rw [at_risk, at_risk, hev]
  have hh1 : csh_1 o1 = csh_1 o2 := by rw [csh_1, csh_1, h1, har]
  have hh2 : csh_2 o1 = csh_2 o2 := by rw [csh_2, csh_2, h2, har]
  have hcond : conditional_survival o1 = conditional_survival o2 := by
    rw [conditional_survival, conditional_survival, hh1, hh2]
  have hos : overall_survival o1 = overall_survival o2 := by
    rw [overall_survival, overall_survival, hcond]
  have hprev : previous_overall_survival o1 = previous_overall_survival o2 := by
    rw [previous_overall_survival, previous_overall_survival, hos]
  have htp1 : transition_prob_1 o1 = transition_prob_1 o2 := by
    rw [transition_prob_1, transition_prob_1, hh1, hprev]
  have htp2 : transition_prob_2 o1 = transition_prob_2 o2 := by
    rw [transition_prob_2, transition_prob_2, hh2, hprev]
  have hc1 : cif_1 o1 = cif_1 o2 := by rw [cif_1, cif_1, htp1]
  have hc2 : cif_2 o1 = cif_2 o2 := by rw [cif_2, cif_2, htp2]
  rw [ajTable, ajTable, ht, h0, h1, h2, hev, har, hh1, hh2, hcond, hos, hprev,
    htp1, htp2, hc1, hc2]

theorem countAt_perm {o1 o2 : List Obs} (h : o1.Perm o2) (k t : ℤ) :
    countAt k o1 t = countAt k o2 t :=
  (h.map _).sum_eq

theorem ajTable_perm {o1 o2 : List Obs} (h : o1.Perm o2) : ajTable o1 = ajTable o2 :=
  ajTable_congr
    (timesCol_eq_of_mem_iff (fun s => (h.map obsTime).mem_iff))
    (fun k => funext fun t => countAt_perm h k t)

/-! ### Claims -/

/-- Claim C1: for the input times=[1,2,3], event_codes=[1,2,0],
weights=[1,1,1], `weighted_aalen_johansen` returns a three-row table whose
overall_survival column equals [2/3, 1/3, 1/3], cif_1 equals
[1/3, 1/3, 1/3] and cif_2 equals [0, 1/3, 1/3] (exact rational
arithmetic). -/
theorem claim_C1 :
    ∃ tbl, weighted_aalen_johansen [1, 2, 3] [1, 2, 0] [1, 1, 1] = Except.ok tbl ∧
      tbl.times = [1, 2, 3] ∧
      tbl.overall_survival = [2/3, 1/3, 1/3] ∧
      tbl.cif_1 = [1/3, 1/3, 1/3] ∧
      tbl.cif_2 = [0, 1/3, 1/3] := by
  refine ⟨ajTable (mkObs [1, 2, 3] [1, 2, 0] [1, 1, 1]), by simp [weighted_aalen_johansen],
    ?_, ?_, ?_, ?_⟩ <;>
    norm_num [ajTable, mkObs, overall_survival, cif_1, cif_2, conditional_survival,
      transition_prob_1, transition_prob_2, previous_overall_survival, shiftFill,
      csh_1, csh_2, at_risk, events_at_times, count_0, count_1, count_2, timesCol,
      countAt, cumsumRev, cumprodAux, cumsumAux, obsTime, obsReal, obsWeight,
      List.insertionSort, List.orderedInsert, List.dedup]

/-- Claim C2: for every input whose result table has only positive
`at_risk` rows, every row satisfies
`overall_survival + cif_1 + cif_2 = 1` (exact arithmetic). -/
theorem claim_C2 (obs : List Obs) (h0 : ∀ x ∈ at_risk obs, 0 < x) (i : ℕ)
    (h1 : i < (overall_survival obs).length) (h2 : i < (cif_1 obs).length)
    (h3 : i < (cif_2 obs).length) :
    (overall_survival obs).get ⟨i, h1⟩ + (cif_1 obs).get ⟨i, h2⟩ +
      (cif_2 obs).get ⟨i, h3⟩ = 1 := by
  have hlen : i < (ajStep 1 0 0 (hazPairs obs)).length := by
    have h := h1
    rw [overall_survival_eq_scan obs] at h
    simpa using h
  have e1 : (overall_survival obs).get ⟨i, h1⟩ =
      ((ajStep 1 0 0 (hazPairs obs)).get ⟨i, hlen⟩).1 := by
    simp only [List.get_eq_getElem]
    simp only [overall_survival_eq_scan obs, List.getElem_map]
  have e2 : (cif_1 obs).get ⟨i, h2⟩ =
      ((ajStep 1 0 0 (hazPairs obs)).get ⟨i, hlen⟩).2.1 := by
    simp only [List.get_eq_getElem]
    simp only [cif_1_eq_scan obs, List.getElem_map]
  have e3 : (cif_2 obs).get ⟨i, h3⟩ =
      ((ajStep 1 0 0 (hazPairs obs)).get ⟨i, hlen⟩).2.2 := by
    simp only [List.get_eq_getElem]
    simp only [cif_2_eq_scan obs, List.getElem_map]
  rw [e1, e2, e3]
  exact ajStep_sum_eq_one (hazPairs obs) 1 0 0 (by norm_num) _ (List.get_mem _ _ _)

/-- Witness for claim C2 at the single-observation input
times=[1], event_codes=[0], weights=[1]. -/
theorem claim_C2_witness :
    (∀ x ∈ at_risk (mkObs [1] [0] [1]), 0 < x) ∧
    (overall_survival (mkObs [1] [0] [1])).get ⟨0, by decide⟩ +
      (cif_1 (mkObs [1] [0] [1])).get ⟨0, by decide⟩ +
      (cif_2 (mkObs [1] [0] [1])).get ⟨0, by decide⟩ = 1 := by
  have hpos : ∀ x ∈ at_risk (mkObs [1] [0] [1]), 0 < x := by
    norm_num [at_risk, events_at_times, count_0, count_1, count_2, timesCol,
      countAt, cumsumRev, mkObs, obsTime, obsReal, obsWeight,
      List.insertionSort, List.orderedInsert, List.dedup]
  exact ⟨hpos, claim_C2 (mkObs [1] [0] [1]) hpos 0 (by decide) (by decide) (by decide)⟩

/-- Claim C5: applying one and the same permutation to the three aligned
input sequences (equivalently, permuting the zipped observation rows)
leaves the result table unchanged; in particular the relative order of
observations sharing a time value never affects any cell. -/
theorem claim_C5 (times reals : List ℤ) (weights : List ℚ)
    (times2 reals2 : List ℤ) (weights2 : List ℚ)
    (hperm : (mkObs times reals weights).Perm (mkObs times2 reals2 weights2))
    (ha : times.length = reals.length) (hb : reals.length = weights.length)
    (hc : times2.length = reals2.length) (hd : reals2.length = weights2.length) :
    weighted_aalen_johansen times reals weights =
      weighted_aalen_johansen times2 reals2 weights2 := by
  rw [weighted_aalen_johansen, weighted_aalen_johansen, if_pos ⟨ha, hb⟩, if_pos ⟨hc, hd⟩,
    ajTable_perm hperm]

/-- Witness for claim C5: swapping two observations that share time 1. -/
theorem claim_C5_witness :
    weighted_aalen_johansen [1, 1] [1, 2] [1, 1] =
      weighted_aalen_johansen [1, 1] [2, 1] [1, 1] :=
  claim_C5 [1, 1] [1, 2] [1, 1] [1, 1] [2, 1] [1, 1] (by decide) rfl rfl rfl rfl

/-- Appending a single zero-weight observation at a time already present
leaves every column of the table unchanged. -/
theorem ajTable_append_zero_weight (obs : List Obs) (t r : ℤ)
    (ht : t ∈ obs.map obsTime) :
    ajTable (obs ++ [(t, r, 0)]) = ajTable obs := by
  apply ajTable_congr
  · apply timesCol_eq_of_mem_iff
    intro s
    simp only [List.map_append, List.mem_append, List.map_cons, List.map_nil,
      List.mem_singleton]
    constructor
    · rintro (hs | hs)
      · exact hs
      · rw [hs]
        simpa [obsTime] using ht
    · exact fun hs => Or.inl hs
  · intro k
    funext s
    simp [countAt, List.sum_append, obsTime, obsReal, obsWeight]

/-- Claim C10: appending one extra observation with an already-present
time `t`, weight 0 and any event code in {0,1,2} yields an identical
result table (the zero-weight observation contributes 0 to every count
and creates no new row). -/
theorem claim_C10 (times reals : List ℤ) (weights : List ℚ) (t r : ℤ)
    (ha : times.length = reals.length) (hb : reals.length = weights.length)
    (ht : t ∈ times) (hr : r ∈ ([0, 1, 2] : List ℤ)) :
    weighted_aalen_johansen (times ++ [t]) (reals ++ [r]) (weights ++ [0]) =
      weighted_aalen_johansen times reals weights := by
  have hmk : mkObs (times ++ [t]) (reals ++ [r]) (weights ++ [0]) =
      mkObs times reals weights ++ [(t, r, 0)] := by
    rw [mkObs, mkObs, List.zip_append hb, List.zip_append]
    · rfl
    · rw [ha, List.length_zip, hb, min_self]
  have htm : t ∈ (mkObs times reals weights).map obsTime := by
    have : (mkObs times reals weights).map obsTime = times := by
      rw [mkObs]
      apply List.map_fst_zip
      rw [List.length_zip, ← ha, ← hb, ← ha, min_self]
    rw [this]
    exact ht
  rw [weighted_aalen_johansen, weighted_aalen_johansen, if_pos (by simp [ha, hb]),
    if_pos ⟨ha, hb⟩, hmk, ajTable_append_zero_weight _ _ _ htm]

/-- Witness for claim C10: appending (time 1, code 0, weight 0) to the
two-observation input times=[1,2], event_codes=[1,0], weights=[1,1]. -/
theorem claim_C10_witness :
    weighted_aalen_johansen [1, 2, 1] [1, 0, 0] [1, 1, 0] =
      weighted_aalen_johansen [1, 2] [1, 0] [1, 1] :=
  claim_C10 [1, 2] [1, 0] [1, 1] 1 0 rfl rfl (by decide) (by decide)

/-! ### Scaling every weight by a constant -/

/-- Multiply the weight of an observation by `c`. -/
def scaleW (c : ℚ) (o : Obs) : Obs := (o.1, o.2.1, c * o.2.2)

theorem timesCol_scale (c : ℚ) (obs : List Obs) :
    timesCol (obs.map (scaleW c)) = timesCol obs := by
  have hmap : List.map (obsTime ∘ scaleW c) obs = List.map obsTime obs :=
    List.map_congr_left fun o _ => rfl
  rw [timesCol, timesCol, List.map_map, hmap]

theorem countAt_scale (c : ℚ) (k : ℤ) (obs : List Obs) (t : ℤ) :
    countAt k (obs.map (scaleW c)) t = c * countAt k obs t := by
  rw [countAt, countAt, List.map_map]
  have hfun : ((fun o => if obsTime o = t then (if obsReal o = k then obsWeight o else 0) else 0)
        ∘ scaleW c) =
      fun o => c * (if obsTime o = t then (if obsReal o = k then obsWeight o else 0) else 0) := by
    funext o
    simp [scaleW, obsTime, obsReal, obsWeight, mul_ite]
  rw [hfun, List.sum_map_mul_left]

theorem count_0_scale (c : ℚ) (obs : List Obs) :
    count_0 (obs.map (scaleW c)) = (count_0 obs).map (fun x => c * x) := by
  rw [count_0, count_0, timesCol_scale, List.map_map]
  exact List.map_congr_left fun t _ => countAt_scale c 0 obs t

theorem count_1_scale (c : ℚ) (obs : List Obs) :
    count_1 (obs.map (scaleW c)) = (count_1 obs).map (fun x => c * x) := by
  rw [count_1, count_1, timesCol_scale, List.map_map]
  exact List.map_congr_left fun t _ => countAt_scale c 1 obs t

theorem count_2_scale (c : ℚ) (obs : List Obs) :
    count_2 (obs.map (scaleW c)) = (count_2 obs).map (fun x => c * x) := by
  rw [count_2, count_2, timesCol_scale, List.map_map]
  exact List.map_congr_left fun t _ => countAt_scale c 2 obs t

theorem zipWith_add_map_mul (c : ℚ) :
    ∀ a b : List ℚ, List.zipWith (· + ·) (a.map (fun x => c * x)) (b.map (fun x => c * x)) =
      (List.zipWith (· + ·) a b).map (fun x => c * x)
  | [], _ => by simp
  | _ :: _, [] => by simp
  | x :: xs, y :: ys => by
    simp only [List.map_cons, List.zipWith_cons_cons, zipWith_add_map_mul c xs ys]
    rw [mul_add]

theorem events_at_times_scale (c : ℚ) (obs : List Obs) :
    events_at_times (obs.map (scaleW c)) = (events_at_times obs).map (fun x => c * x) := by
  rw [events_at_times, events_at_times, count_0_scale, count_1_scale, count_2_scale,
    zipWith_add_map_mul, zipWith_add_map_mul]

theorem cumsumRev_map_mul (c : ℚ) :
    ∀ l : List ℚ, cumsumRev (l.map (fun x => c * x)) = (cumsumRev l).map (fun x => c * x)
  | [] => rfl
  | x :: xs => by
    simp only [List.map_cons, cumsumRev, cumsumRev_map_mul c xs, List.cons.injEq, and_true]
    have hsum : (List.map (fun x => c * x) xs).sum = c * xs.sum := by
      have h := List.sum_map_mul_left xs (fun x => x) c
      simpa using h
    rw [hsum, mul_add]

theorem at_risk_scale (c : ℚ) (obs : List Obs) :
    at_risk (obs.map (scaleW c)) = (at_risk obs).map (fun x => c * x) := by
  rw [at_risk, at_risk, events_at_times_scale, cumsumRev_map_mul]

theorem zipWith_div_map_mul {c : ℚ} (hc : c ≠ 0) :
    ∀ a b : List ℚ, List.zipWith (· / ·) (a.map (fun x => c * x)) (b.map (fun x => c * x)) =
      List.zipWith (· / ·) a b
  | [], _ => by simp
  | _ :: _, [] => by simp
  | x :: xs, y :: ys => by
    simp only [List.map_cons, List.zipWith_cons_cons, zipWith_div_map_mul hc xs ys]
    rw [mul_div_mul_left x y hc]

theorem csh_1_scale {c : ℚ} (hc : c ≠ 0) (obs : List Obs) :
    csh_1 (obs.map (scaleW c)) = csh_1 obs := by
  rw [csh_1, csh_1, count_1_scale, at_risk_scale, zipWith_div_map_mul hc]

theorem csh_2_scale {c : ℚ} (hc : c ≠ 0) (obs : List Obs) :
    csh_2 (obs.map (scaleW c)) = csh_2 obs := by
  rw [csh_2, csh_2, count_2_scale, at_risk_scale, zipWith_div_map_mul hc]

/-- Claim C4: scaling all weights by one positive constant `c` leaves
`csh_1`, `csh_2`, `conditional_survival`, `overall_survival`, `cif_1`,
`cif_2` unchanged, while `count_0`, `count_1`, `count_2`,
`events_at_times` and `at_risk` are multiplied by `c`. -/
theorem claim_C4 (times reals : List ℤ) (weights : List ℚ) (c : ℚ) (hc : 0 < c)
    (ha : times.length = reals.length) (hb : reals.length = weights.length) :
    ∃ t1 t2,
      weighted_aalen_johansen times reals weights = Except.ok t1 ∧
      weighted_aalen_johansen times reals (weights.map (fun x => c * x)) = Except.ok t2 ∧
      t2.csh_1 = t1.csh_1 ∧ t2.csh_2 = t1.csh_2 ∧
      t2.conditional_survival = t1.conditional_survival ∧
      t2.overall_survival = t1.overall_survival ∧
      t2.cif_1 = t1.cif_1 ∧ t2.cif_2 = t1.cif_2 ∧
      t2.count_0 = t1.count_0.map (fun x => c * x) ∧
      t2.count_1 = t1.count_1.map (fun x => c * x) ∧
      t2.count_2 = t1.count_2.map (fun x => c * x) ∧
      t2.events_at_times = t1.events_at_times.map (fun x => c * x) ∧
      t2.at_risk = t1.at_risk.map (fun x => c * x) := by
  have hne : c ≠ 0 := ne_of_gt hc
  have hmk : mkObs times reals (weights.map (fun x => c * x)) =
      (mkObs times reals weights).map (scaleW c) := by
    rw [mkObs, mkObs, List.zip_map_right, List.zip_map_right]
    apply List.map_congr_left
    intro o _
    obtain ⟨a, b, w⟩ := o
    rfl
  set obs := mkObs times reals weights with hobs
  refine ⟨ajTable obs, ajTable (obs.map (scaleW c)), ?_, ?_, ?_, ?_, ?_, ?_, ?_, ?_,
    ?_, ?_, ?_, ?_, ?_⟩
  · rw [weighted_aalen_johansen, if_pos ⟨ha, hb⟩]
  · rw [weighted_aalen_johansen, if_pos (by simp [ha, hb]), hmk]
  · exact csh_1_scale hne obs
  · exact csh_2_scale hne obs
  · show conditional_survival _ = conditional_survival obs
    rw [conditional_survival, conditional_survival, csh_1_scale hne, csh_2_scale hne]
  · show overall_survival _ = overall_survival obs
    rw [overall_survival, overall_survival, conditional_survival,
      conditional_survival, csh_1_scale hne, csh_2_scale hne]
  · show cif_1 _ = cif_1 obs
    rw [cif_1, cif_1, transition_prob_1, transition_prob_1, csh_1_scale hne,
      previous_overall_survival, previous_overall_survival, overall_survival,
      overall_survival, conditional_survival, conditional_survival,
      csh_1_scale hne, csh_2_scale hne]
  · show cif_2 _ = cif_2 obs
    rw [cif_2, cif_2, transition_prob_2, transition_prob_2, csh_2_scale hne,
      previous_overall_survival, previous_overall_survival, overall_survival,
      overall_survival, conditional_survival, conditional_survival,
      csh_1_scale hne, csh_2_scale hne]
  · exact count_0_scale c obs
  · exact count_1_scale c obs
  · exact count_2_scale c obs
  · exact events_at_times_scale c obs
  · exact at_risk_scale c obs

/-- Witness for claim C4 at times=[1,2], event_codes=[1,0], weights=[1,2],
scale factor 3. -/
theorem claim_C4_witness :
    ∃ t1 t2,
      weighted_aalen_johansen [1, 2] [1, 0] [1, 2] = Except.ok t1 ∧
      weighted_aalen_johansen [1, 2] [1, 0] (([1, 2] : List ℚ).map (fun x => 3 * x)) =
        Except.ok t2 ∧
      t2.csh_1 = t1.csh_1 ∧ t2.csh_2 = t1.csh_2 ∧
      t2.conditional_survival = t1.conditional_survival ∧
      t2.overall_survival = t1.overall_survival ∧
      t2.cif_1 = t1.cif_1 ∧ t2.cif_2 = t1.cif_2 ∧
      t2.count_0 = t1.count_0.map (fun x => (3 : ℚ) * x) ∧
      t2.count_1 = t1.count_1.map (fun x => (3 : ℚ) * x) ∧
      t2.count_2 = t1.count_2.map (fun x => (3 : ℚ) * x) ∧
      t2.events_at_times = t1.events_at_times.map (fun x => (3 : ℚ) * x) ∧
      t2.at_risk = t1.at_risk.map (fun x => (3 : ℚ) * x) :=
  claim_C4 [1, 2] [1, 0] [1, 2] 3 (by norm_num) rfl rfl

/-! ### Shape of the result table -/

theorem mkObs_map_obsTime (times reals : List ℤ) (weights : List ℚ)
    (ha : times.length = reals.length) (hb : reals.length = weights.length) :
    (mkObs times reals weights).map obsTime = times := by
  rw [mkObs]
  apply List.map_fst_zip
  rw [List.length_zip, ← ha, ← hb, ← ha, min_self]

theorem timesCol_sorted_lt (obs : List Obs) : (timesCol obs).Sorted (· < ·) := by
  have hle : (timesCol obs).Sorted (· ≤ ·) := List.sorted_insertionSort _ _
  have hnd : (timesCol obs).Nodup :=
    (List.perm_insertionSort _ _).nodup_iff.mpr (List.nodup_dedup _)
  exact (List.Pairwise.and hle hnd).imp fun h => lt_of_le_of_ne h.1 h.2

theorem timesCol_mem (obs : List Obs) (t : ℤ) :
    t ∈ timesCol obs ↔ t ∈ obs.map obsTime := by
  rw [timesCol, (List.perm_insertionSort _ _).mem_iff, List.mem_dedup]

/-- Claim C8: whenever the three input sequences do not all have the same
length, the function fails with a descriptive error (the polars
`ShapeError` raised while building the DataFrame, before any aggregation);
it never truncates or pads. -/
theorem claim_C8 (times reals : List ℤ) (weights : List ℚ)
    (h : ¬(times.length = reals.length ∧ reals.length = weights.length)) :
    weighted_aalen_johansen times reals weights =
      Except.error "lengths of columns in the DataFrame differ" := by
  rw [weighted_aalen_johansen, if_neg h]

/-- Witness for claim C8: times has length 1, the other two are empty. -/
theorem claim_C8_witness :
    weighted_aalen_johansen [1] [] [] =
      Except.error "lengths of columns in the DataFrame differ" :=
  claim_C8 [1] [] [] (by decide)

/-- Claim C6: for equal-length inputs the result has exactly one row per
distinct value of `times` (its time index is strictly sorted, contains
exactly the values occurring in `times`, and has the length of
`times.dedup`), every column has that same number of rows, and an empty
input yields a table with zero rows in the same schema. -/
theorem claim_C6 (times reals : List ℤ) (weights : List ℚ)
    (ha : times.length = reals.length) (hb : reals.length = weights.length) :
    ∃ tbl, weighted_aalen_johansen times reals weights = Except.ok tbl ∧
      tbl.times.Sorted (· < ·) ∧
      (∀ t, t ∈ tbl.times ↔ t ∈ times) ∧
      tbl.times.length = times.dedup.length ∧
      tbl.count_0.length = tbl.times.length ∧
      tbl.count_1.length = tbl.times.length ∧
      tbl.count_2.length = tbl.times.length ∧
      tbl.events_at_times.length = tbl.times.length ∧
      tbl.at_risk.length = tbl.times.length ∧
      tbl.csh_1.length = tbl.times.length ∧
      tbl.csh_2.length = tbl.times.length ∧
      tbl.conditional_survival.length = tbl.times.length ∧
      tbl.overall_survival.length = tbl.times.length ∧
      tbl.previous_overall_survival.length = tbl.times.length ∧
      tbl.transition_prob_1.length = tbl.times.length ∧
      tbl.transition_prob_2.length = tbl.times.length ∧
      tbl.cif_1.length = tbl.times.length ∧
      tbl.cif_2.length = tbl.times.length ∧
      (times = [] → tbl.times = []) := by
  have hm : (mkObs times reals weights).map obsTime = times :=
    mkObs_map_obsTime times reals weights ha hb
  refine ⟨ajTable (mkObs times reals weights), ?_, ?_, ?_, ?_, ?_, ?_, ?_, ?_, ?_,
    ?_, ?_, ?_, ?_, ?_, ?_, ?_, ?_, ?_, ?_⟩
  · rw [weighted_aalen_johansen, if_pos ⟨ha, hb⟩]
  · exact timesCol_sorted_lt _
  · intro t
    rw [show (ajTable (mkObs times reals weights)).times = timesCol (mkObs times reals weights)
      from rfl, timesCol_mem, hm]
  · show (timesCol _).length = _
    rw [timesCol, (List.perm_insertionSort _ _).length_eq, hm]
  · exact count_0_length _
  · exact count_1_length _
  · exact count_2_length _
  · exact events_at_times_length _
  · exact at_risk_length _
  · exact csh_1_length _
  · exact csh_2_length _
  · exact conditional_survival_length _
  · exact overall_survival_length _
  · exact previous_overall_survival_length _
  · exact transition_prob_1_length _
  · exact transition_prob_2_length _
  · exact cif_1_length _
  · exact cif_2_length _
  · intro h0
    subst h0
    rfl

/-- Witness for claim C6 at times=[1,1,2], event_codes=[1,0,2],
weights=[1,1,1]. -/
theorem claim_C6_witness :
    ∃ tbl, weighted_aalen_johansen [1, 1, 2] [1, 0, 2] [1, 1, 1] = Except.ok tbl ∧
      tbl.times.Sorted (· < ·) ∧
      (∀ t, t ∈ tbl.times ↔ t ∈ ([1, 1, 2] : List ℤ)) ∧
      tbl.times.length = ([1, 1, 2] : List ℤ).dedup.length ∧
      tbl.count_0.length = tbl.times.length ∧
      tbl.count_1.length = tbl.times.length ∧
      tbl.count_2.length = tbl.times.length ∧
      tbl.events_at_times.length = tbl.times.length ∧
      tbl.at_risk.length = tbl.times.length ∧
      tbl.csh_1.length = tbl.times.length ∧
      tbl.csh_2.length = tbl.times.length ∧
      tbl.conditional_survival.length = tbl.times.length ∧
      tbl.overall_survival.length = tbl.times.length ∧
      tbl.previous_overall_survival.length = tbl.times.length ∧
      tbl.transition_prob_1.length = tbl.times.length ∧
      tbl.transition_prob_2.length = tbl.times.length ∧
      tbl.cif_1.length = tbl.times.length ∧
      tbl.cif_2.length = tbl.times.length ∧
      (([1, 1, 2] : List ℤ) = [] → tbl.times = []) :=
  claim_C6 [1, 1, 2] [1, 0, 2] [1, 1, 1] rfl rfl

/-- Claim C9, counterexample: the result table's columns do not carry the
names enumerated in section 3 of the spec: the code's first column is
named "times", not "time", and its fifth is "events_at_times", not
"events_at_time". -/
theorem claim_C9_counterexample : ajColumnNames ≠ specColumnNames := by decide

/-- Claim C9, amended: the result table contains exactly the fifteen
columns of section 3, in the field order listed there and with no others,
except that the code names the first column "times" rather than "time" and
the fifth "events_at_times" rather than "events_at_time": the code's
schema is the spec's list with exactly those two entries renamed. -/
theorem claim_C9 :
    ajColumnNames = (specColumnNames.set 0 "times").set 4 "events_at_times" ∧
      ajColumnNames.Nodup := by
  constructor
  · rfl
  · decide

/-! ### Bounds on the hazard and survival columns for non-negative weights -/

theorem countAt_nonneg {obs : List Obs} (hw : ∀ o ∈ obs, 0 ≤ obsWeight o) (k t : ℤ) :
    0 ≤ countAt k obs t := by
  apply List.sum_nonneg
  intro x hx
  obtain ⟨o, ho, rfl⟩ := List.mem_map.mp hx
  split_ifs with hcond1 hcond2
  · exact hw o ho
  · exact le_refl 0
  · exact le_refl 0

theorem events_mem_nonneg {obs : List Obs} (hw : ∀ o ∈ obs, 0 ≤ obsWeight o) :
    ∀ x ∈ events_at_times obs, 0 ≤ x := by
  rw [events_eq_map]
  intro x hx
  obtain ⟨t, _, rfl⟩ := List.mem_map.mp hx
  have h0 := countAt_nonneg hw 0 t
  have h1 := countAt_nonneg hw 1 t
  have h2 := countAt_nonneg hw 2 t
  linarith

theorem cumsumRev_getElem (l : List ℚ) (i : ℕ) (h : i < (cumsumRev l).length) :
    (cumsumRev l)[i] = (l.drop i).sum := by
  simpa [List.get_eq_getElem] using cumsumRev_get l i h

theorem at_risk_getElem (obs : List Obs) (i : ℕ) (h : i < (at_risk obs).length) :
    (at_risk obs)[i] = ((events_at_times obs).drop i).sum :=
  cumsumRev_getElem (events_at_times obs) i h

/-- At each row, both cause-specific hazards are non-negative and their
sum is at most 1, given non-negative weights and no zero risk set. -/
theorem row_bounds (obs : List Obs) (hw : ∀ o ∈ obs, 0 ≤ obsWeight o)
    (hz : ∀ x ∈ at_risk obs, x ≠ 0) (i : ℕ)
    (h1 : i < (csh_1 obs).length) (h2 : i < (csh_2 obs).length) :
    0 ≤ (csh_1 obs).get ⟨i, h1⟩ ∧ 0 ≤ (csh_2 obs).get ⟨i, h2⟩ ∧
      (csh_1 obs).get ⟨i, h1⟩ + (csh_2 obs).get ⟨i, h2⟩ ≤ 1 := by
  have hn : i < (timesCol obs).length := by rw [← csh_1_length]; exact h1
  have hev : i < (events_at_times obs).length := by rw [events_at_times_length]; exact hn
  have har : i < (at_risk obs).length := by rw [at_risk_length]; exact hn
  have hc1 : i < (count_1 obs).length := by rw [count_1_length]; exact hn
  have hc2 : i < (count_2 obs).length := by rw [count_2_length]; exact hn
  have e1 : (csh_1 obs).get ⟨i, h1⟩ = (count_1 obs)[i] / (at_risk obs)[i] := by
    simp only [List.get_eq_getElem, csh_1, List.getElem_zipWith]
  have e2 : (csh_2 obs).get ⟨i, h2⟩ = (count_2 obs)[i] / (at_risk obs)[i] := by
    simp only [List.get_eq_getElem, csh_2, List.getElem_zipWith]
  have ear : (at_risk obs)[i] = ((events_at_times obs).drop i).sum :=
    at_risk_getElem obs i har
  have hRnn : 0 ≤ (at_risk obs)[i] := by
    rw [ear]
    exact List.sum_nonneg fun x hx =>
      events_mem_nonneg hw x (List.drop_subset i _ hx)
  have hRne : (at_risk obs)[i] ≠ 0 := hz _ (List.getElem_mem har)
  have hRpos : 0 < (at_risk obs)[i] := lt_of_le_of_ne hRnn (Ne.symm hRne)
  have eev : (events_at_times obs)[i] =
      countAt 0 obs (timesCol obs)[i] + countAt 1 obs (timesCol obs)[i] +
        countAt 2 obs (timesCol obs)[i] := by
    simp only [events_eq_map obs, List.getElem_map]
  have ec1 : (count_1 obs)[i] = countAt 1 obs (timesCol obs)[i] := by
    simp only [count_1, List.getElem_map]
  have ec2 : (count_2 obs)[i] = countAt 2 obs (timesCol obs)[i] := by
    simp only [count_2, List.getElem_map]
  have hevleR : (events_at_times obs)[i] ≤ (at_risk obs)[i] := by
    rw [ear, List.drop_eq_getElem_cons hev, List.sum_cons]
    have htail : 0 ≤ ((events_at_times obs).drop (i + 1)).sum :=
      List.sum_nonneg fun x hx => events_mem_nonneg hw x (List.drop_subset (i + 1) _ hx)
    linarith
  have h0nn := countAt_nonneg hw 0 (timesCol obs)[i]
  have h1nn := countAt_nonneg hw 1 (timesCol obs)[i]
  have h2nn := countAt_nonneg hw 2 (timesCol obs)[i]
  have hsumle : (count_1 obs)[i] + (count_2 obs)[i] ≤ (at_risk obs)[i] := by
    rw [ec1, ec2]
    rw [eev] at hevleR
    linarith
  refine ⟨?_, ?_, ?_⟩
  · rw [e1]
    exact div_nonneg (by rw [ec1]; exact h1nn) hRnn
  · rw [e2]
    exact div_nonneg (by rw [ec2]; exact h2nn) hRnn
  · rw [e1, e2, div_add_div_same, div_le_one hRpos]
    exact hsumle

/-- Every entry of `conditional_survival` lies in [0, 1], given
non-negative weights and no zero risk set. -/
theorem cond_bounds (obs : List Obs) (hw : ∀ o ∈ obs, 0 ≤ obsWeight o)
    (hz : ∀ x ∈ at_risk obs, x ≠ 0) :
    ∀ x ∈ conditional_survival obs, 0 ≤ x ∧ x ≤ 1 := by
  intro x hx
  rw [conditional_survival] at hx
  obtain ⟨i, h1, h2, hxeq⟩ := mem_zipWith hx
  have hb := row_bounds obs hw hz i h1 h2
  rw [hxeq]
  exact ⟨by linarith [hb.2.2], by linarith [hb.1, hb.2.1]⟩

theorem cumprodAux_nonneg :
    ∀ (l : List ℚ) (a : ℚ), 0 ≤ a → (∀ x ∈ l, 0 ≤ x) →
      ∀ y ∈ cumprodAux a l, 0 ≤ y
  | [], _, _, _, y, hy => by simp [cumprodAux] at hy
  | x :: xs, a, ha, hl, y, hy => by
    have hx : 0 ≤ x := hl x (List.mem_cons_self x xs)
    have hax : 0 ≤ a * x := mul_nonneg ha hx
    rcases List.mem_cons.mp hy with hy | hy
    · rw [hy]; exact hax
    · exact cumprodAux_nonneg xs (a * x) hax
        (fun z hz => hl z (List.mem_cons_of_mem x hz)) y hy

theorem cumprodAux_chain :
    ∀ (l : List ℚ) (a : ℚ), 0 ≤ a → (∀ x ∈ l, 0 ≤ x ∧ x ≤ 1) →
      List.Chain' (· ≥ ·) (a :: cumprodAux a l)
  | [], _, _, _ => by simp [cumprodAux]
  | x :: xs, a, ha, hl => by
    have hx := hl x (List.mem_cons_self x xs)
    have hax : 0 ≤ a * x := mul_nonneg ha hx.1
    have hle : a * x ≤ a := mul_le_of_le_one_right ha hx.2
    rw [cumprodAux, List.chain'_cons]
    exact ⟨hle, cumprodAux_chain xs (a * x) hax
      (fun z hz => hl z (List.mem_cons_of_mem x hz))⟩

theorem cumsumAux_chain :
    ∀ (l : List ℚ) (a : ℚ), (∀ x ∈ l, 0 ≤ x) →
      List.Chain' (· ≤ ·) (a :: cumsumAux a l)
  | [], _, _ => by simp [cumsumAux]
  | x :: xs, a, hl => by
    have hx : 0 ≤ x := hl x (List.mem_cons_self x xs)
    rw [cumsumAux, List.chain'_cons]
    exact ⟨le_add_of_nonneg_right hx, cumsumAux_chain xs (a + x)
      (fun z hz => hl z (List.mem_cons_of_mem x hz))⟩

theorem overall_survival_mem_nonneg (obs : List Obs)
    (hw : ∀ o ∈ obs, 0 ≤ obsWeight o) (hz : ∀ x ∈ at_risk obs, x ≠ 0) :
    ∀ y ∈ overall_survival obs, 0 ≤ y := by
  rw [overall_survival]
  exact cumprodAux_nonneg _ 1 (by norm_num)
    (fun x hx => (cond_bounds obs hw hz x hx).1)

theorem previous_overall_survival_mem_nonneg (obs : List Obs)
    (hw : ∀ o ∈ obs, 0 ≤ obsWeight o) (hz : ∀ x ∈ at_risk obs, x ≠ 0) :
    ∀ y ∈ previous_overall_survival obs, 0 ≤ y := by
  intro y hy
  rw [previous_overall_survival, shiftFill] at hy
  have hy2 : y ∈ 1 :: overall_survival obs :=
    (List.dropLast_sublist _).mem hy
  rcases List.mem_cons.mp hy2 with hy2 | hy2
  · rw [hy2]; norm_num
  · exact overall_survival_mem_nonneg obs hw hz y hy2

theorem transition_prob_1_mem_nonneg (obs : List Obs)
    (hw : ∀ o ∈ obs, 0 ≤ obsWeight o) (hz : ∀ x ∈ at_risk obs, x ≠ 0) :
    ∀ x ∈ transition_prob_1 obs, 0 ≤ x := by
  intro x hx
  rw [transition_prob_1] at hx
  obtain ⟨i, h1, h2, hxeq⟩ := mem_zipWith hx
  have hcsh2 : i < (csh_2 obs).length := by
    rw [csh_2_length, ← csh_1_length]; exact h1
  have hb := row_bounds obs hw hz i h1 hcsh2
  have hprev : 0 ≤ (previous_overall_survival obs).get ⟨i, h2⟩ :=
    previous_overall_survival_mem_nonneg obs hw hz _ (List.get_mem _ _ _)
  rw [hxeq]
  exact mul_nonneg hb.1 hprev

theorem transition_prob_2_mem_nonneg (obs : List Obs)
    (hw : ∀ o ∈ obs, 0 ≤ obsWeight o) (hz : ∀ x ∈ at_risk obs, x ≠ 0) :
    ∀ x ∈ transition_prob_2 obs, 0 ≤ x := by
  intro x hx
  rw [transition_prob_2] at hx
  obtain ⟨i, h1, h2, hxeq⟩ := mem_zipWith hx
  have hcsh1 : i < (csh_1 obs).length := by
    rw [csh_1_length, ← csh_2_length]; exact h1
  have hb := row_bounds obs hw hz i hcsh1 h1
  have hprev : 0 ≤ (previous_overall_survival obs).get ⟨i, h2⟩ :=
    previous_overall_survival_mem_nonneg obs hw hz _ (List.get_mem _ _ _)
  rw [hxeq]
  exact mul_nonneg hb.2.1 hprev

/-- Claim C3: with non-negative weights and no zero-`at_risk` rows,
`overall_survival` is non-increasing across rows and `cif_1`, `cif_2` are
each non-decreasing across rows. -/
theorem claim_C3 (obs : List Obs) (hw : ∀ o ∈ obs, 0 ≤ obsWeight o)
    (hz : ∀ x ∈ at_risk obs, x ≠ 0) :
    List.Pairwise (· ≥ ·) (overall_survival obs) ∧
      List.Pairwise (· ≤ ·) (cif_1 obs) ∧
      List.Pairwise (· ≤ ·) (cif_2 obs) := by
  haveI : IsTrans ℚ (· ≥ ·) := ⟨fun a b c hab hbc => le_trans hbc hab⟩
  refine ⟨?_, ?_, ?_⟩
  · have hchain : List.Chain' (· ≥ ·) ((1 : ℚ) :: cumprodAux 1 (conditional_survival obs)) :=
      cumprodAux_chain _ 1 (by norm_num) (cond_bounds obs hw hz)
    rw [overall_survival]
    exact List.chain'_iff_pairwise.mp hchain.tail
  · have hchain : List.Chain' (· ≤ ·) ((0 : ℚ) :: cumsumAux 0 (transition_prob_1 obs)) :=
      cumsumAux_chain _ 0 (transition_prob_1_mem_nonneg obs hw hz)
    rw [cif_1]
    exact List.chain'_iff_pairwise.mp hchain.tail
  · have hchain : List.Chain' (· ≤ ·) ((0 : ℚ) :: cumsumAux 0 (transition_prob_2 obs)) :=
      cumsumAux_chain _ 0 (transition_prob_2_mem_nonneg obs hw hz)
    rw [cif_2]
    exact List.chain'_iff_pairwise.mp hchain.tail

/-- Witness for claim C3 at times=[1,2], event_codes=[1,0],
weights=[1,1]. -/
theorem claim_C3_witness :
    List.Pairwise (· ≥ ·) (overall_survival (mkObs [1, 2] [1, 0] [1, 1])) ∧
      List.Pairwise (· ≤ ·) (cif_1 (mkObs [1, 2] [1, 0] [1, 1])) ∧
      List.Pairwise (· ≤ ·) (cif_2 (mkObs [1, 2] [1, 0] [1, 1])) :=
  claim_C3 (mkObs [1, 2] [1, 0] [1, 1]) (by decide)
    (by norm_num [at_risk, events_at_times, count_0, count_1, count_2, timesCol,
      countAt, cumsumRev, mkObs, obsTime, obsReal, obsWeight,
      List.insertionSort, List.orderedInsert, List.dedup])

/-! ### IEEE-style value model for the float behaviour at zero risk sets

polars computes the hazard columns in 64-bit floats, so dividing by a zero
`at_risk` yields the IEEE special values instead of raising.  `FloatV`
models an IEEE double as NaN, a signed infinity, or an exact finite value;
rounding is not modelled (the claims only concern the special values).
The aggregation stages (counts, events, at-risk) are sums of finite inputs
and produce no special values, so the float pipeline below re-runs the
stages from the hazard division onward on the exact aggregated columns. -/
inductive FloatV where
  | nan : FloatV
  | inf : Bool → FloatV
  | num : ℚ → FloatV
deriving DecidableEq, Repr

/-- IEEE negation. -/
def fneg : FloatV → FloatV
  | .nan => .nan
  | .inf s => .inf (!s)
  | .num a => .num (-a)

/-- IEEE addition (exact on finite values). -/
def fadd : FloatV → FloatV → FloatV
  | .nan, _ => .nan
  | _, .nan => .nan
  | .inf s, .inf t => if s = t then .inf s else .nan
  | .inf s, .num _ => .inf s
  | .num _, .inf t => .inf t
  | .num a, .num b => .num (a + b)

/-- IEEE subtraction. -/
def fsub (x y : FloatV) : FloatV := fadd x (fneg y)

/-- IEEE multiplication (exact on finite values). -/
def fmul : FloatV → FloatV → FloatV
  | .nan, _ => .nan
  | _, .nan => .nan
  | .inf s, .inf t => .inf (s == t)
  | .inf s, .num b => if b = 0 then .nan else .inf (s == decide (0 < b))
  | .num a, .inf t => if a = 0 then .nan else .inf (t == decide (0 < a))
  | .num a, .num b => .num (a * b)

/-- IEEE division (exact on finite values; a zero denominator gives NaN
for a zero numerator and a signed infinity otherwise). -/
def fdiv : FloatV → FloatV → FloatV
  | .nan, _ => .nan
  | _, .nan => .nan
  | .inf _, .inf _ => .nan
  | .inf s, .num b => if b = 0 then .inf s else .inf (s == decide (0 < b))
  | .num _, .inf _ => .num 0
  | .num a, .num b =>
    if b = 0 then (if a = 0 then .nan else .inf (decide (0 < a)))
    else .num (a / b)

theorem fadd_nan_right (x : FloatV) : fadd x .nan = .nan := by cases x <;> rfl

theorem fmul_nan_right (x : FloatV) : fmul x .nan = .nan := by cases x <;> rfl

theorem fsub_nan_right (x : FloatV) : fsub x .nan = .nan := by cases x <;> rfl

/-- The `csh_1` column in float arithmetic. -/
def csh_1F (obs : List Obs) : List FloatV :=
  List.zipWith (fun c r => fdiv (.num c) (.num r)) (count_1 obs) (at_risk obs)

/-- The `csh_2` column in float arithmetic. -/
def csh_2F (obs : List Obs) : List FloatV :=
  List.zipWith (fun c r => fdiv (.num c) (.num r)) (count_2 obs) (at_risk obs)

/-- The `conditional_survival` column in float arithmetic. -/
def conditional_survivalF (obs : List Obs) : List FloatV :=
  List.zipWith (fun a b => fsub (fsub (.num 1) a) b) (csh_1F obs) (csh_2F obs)

/-- Cumulative product in float arithmetic. -/
def cumprodAuxF (a : FloatV) : List FloatV → List FloatV
  | [] => []
  | x :: xs => (fmul a x) :: cumprodAuxF (fmul a x) xs

/-- The `overall_survival` column in float arithmetic. -/
def overall_survivalF (obs : List Obs) : List FloatV :=
  cumprodAuxF (.num 1) (conditional_survivalF obs)

/-- The `previous_overall_survival` column in float arithmetic. -/
def previous_overall_survivalF (obs : List Obs) : List FloatV :=
  (FloatV.num 1 :: overall_survivalF obs).dropLast

/-- The `transition_prob_1` column in float arithmetic. -/
def transition_prob_1F (obs : List Obs) : List FloatV :=
  List.zipWith fmul (csh_1F obs) (previous_overall_survivalF obs)

/-- The `transition_prob_2` column in float arithmetic. -/
def transition_prob_2F (obs : List Obs) : List FloatV :=
  List.zipWith fmul (csh_2F obs) (previous_overall_survivalF obs)

/-- Cumulative sum in float arithmetic. -/
def cumsumAuxF (a : FloatV) : List FloatV → List FloatV
  | [] => []
  | x :: xs => (fadd a x) :: cumsumAuxF (fadd a x) xs

/-- The `cif_1` column in float arithmetic. -/
def cif_1F (obs : List Obs) : List FloatV :=
  cumsumAuxF (.num 0) (transition_prob_1F obs)

/-- The `cif_2` column in float arithmetic. -/
def cif_2F (obs : List Obs) : List FloatV :=
  cumsumAuxF (.num 0) (transition_prob_2F obs)

theorem cumprodAuxF_length (a : FloatV) :
    ∀ l : List FloatV, (cumprodAuxF a l).length = l.length
  | [] => rfl
  | _ :: xs => by simp [cumprodAuxF, cumprodAuxF_length _ xs]

theorem cumsumAuxF_length (a : FloatV) :
    ∀ l : List FloatV, (cumsumAuxF a l).length = l.length
  | [] => rfl
  | _ :: xs => by simp [cumsumAuxF, cumsumAuxF_length _ xs]

theorem csh_1F_length (obs : List Obs) : (csh_1F obs).length = (timesCol obs).length := by
  simp [csh_1F, count_1_length, at_risk_length]

theorem csh_2F_length (obs : List Obs) : (csh_2F obs).length = (timesCol obs).length := by
  simp [csh_2F, count_2_length, at_risk_length]

theorem conditional_survivalF_length (obs : List Obs) :
    (conditional_survivalF obs).length = (timesCol obs).length := by
  simp [conditional_survivalF, csh_1F_length, csh_2F_length]

theorem overall_survivalF_length (obs : List Obs) :
    (overall_survivalF obs).length = (timesCol obs).length := by
  simp [overall_survivalF, cumprodAuxF_length, conditional_survivalF_length]

theorem previous_overall_survivalF_length (obs : List Obs) :
    (previous_overall_survivalF obs).length = (timesCol obs).length := by
  simp [previous_overall_survivalF, overall_survivalF_length]

theorem transition_prob_1F_length (obs : List Obs) :
    (transition_prob_1F obs).length = (timesCol obs).length := by
  simp [transition_prob_1F, csh_1F_length, previous_overall_survivalF_length]

theorem transition_prob_2F_length (obs : List Obs) :
    (transition_prob_2F obs).length = (timesCol obs).length := by
  simp [transition_prob_2F, csh_2F_length, previous_overall_survivalF_length]

theorem cumprodAuxF_get :
    ∀ (l : List FloatV) (a : FloatV) (i : ℕ) (h : i < l.length)
      (h2 : i < (cumprodAuxF a l).length),
      ∃ acc, (cumprodAuxF a l).get ⟨i, h2⟩ = fmul acc (l.get ⟨i, h⟩)
  | x :: xs, a, 0, _, _ => ⟨a, rfl⟩
  | x :: xs, a, i + 1, h, h2 => by
    obtain ⟨acc, hacc⟩ := cumprodAuxF_get xs (fmul a x) i
      (by simpa using h) (by simpa [cumprodAuxF] using h2)
    exact ⟨acc, by simpa [cumprodAuxF] using hacc⟩

theorem cumsumAuxF_get :
    ∀ (l : List FloatV) (a : FloatV) (i : ℕ) (h : i < l.length)
      (h2 : i < (cumsumAuxF a l).length),
      ∃ acc, (cumsumAuxF a l).get ⟨i, h2⟩ = fadd acc (l.get ⟨i, h⟩)
  | x :: xs, a, 0, _, _ => ⟨a, rfl⟩
  | x :: xs, a, i + 1, h, h2 => by
    obtain ⟨acc, hacc⟩ := cumsumAuxF_get xs (fadd a x) i
      (by simpa using h) (by simpa [cumsumAuxF] using h2)
    exact ⟨acc, by simpa [cumsumAuxF] using hacc⟩

theorem sum_zero_all_zero :
    ∀ l : List ℚ, (∀ x ∈ l, 0 ≤ x) → l.sum = 0 → ∀ x ∈ l, x = 0
  | [], _, _, x, hx => by simp at hx
  | y :: ys, hnn, hsum, x, hx => by
    have hy : 0 ≤ y := hnn y (List.mem_cons_self y ys)
    have hys : 0 ≤ ys.sum :=
      List.sum_nonneg fun z hz => hnn z (List.mem_cons_of_mem y hz)
    rw [List.sum_cons] at hsum
    have hy0 : y = 0 := by linarith
    have hys0 : ys.sum = 0 := by linarith
    rcases List.mem_cons.mp hx with hx | hx
    · rw [hx]; exact hy0
    · exact sum_zero_all_zero ys (fun z hz => hnn z (List.mem_cons_of_mem y hz)) hys0 x hx

theorem fmul_nan_left (y : FloatV) : fmul .nan y = .nan := by cases y <;> rfl

/-- Claim C7: on the spec's input domain (non-negative weights), whenever
a result row `i` has `at_risk = 0`, the float pipeline does not raise:
`csh_1` and `csh_2` at that row are the IEEE NaN sentinel (0/0), and the
NaN propagates into the conditional survival, overall survival and both
CIF cells of that row and of every later row `j`.  (The embedded function
is total, mirroring that the polars pipeline never raises here.) -/
theorem claim_C7 (obs : List Obs) (hw : ∀ o ∈ obs, 0 ≤ obsWeight o)
    (i : ℕ) (hi : i < (at_risk obs).length) (h0 : (at_risk obs).get ⟨i, hi⟩ = 0)
    (j : ℕ) (hij : i ≤ j)
    (hj1 : j < (csh_1F obs).length) (hj2 : j < (csh_2F obs).length)
    (hj3 : j < (conditional_survivalF obs).length)
    (hj4 : j < (overall_survivalF obs).length)
    (hj5 : j < (cif_1F obs).length) (hj6 : j < (cif_2F obs).length) :
    (csh_1F obs).get ⟨j, hj1⟩ = FloatV.nan ∧
      (csh_2F obs).get ⟨j, hj2⟩ = FloatV.nan ∧
      (conditional_survivalF obs).get ⟨j, hj3⟩ = FloatV.nan ∧
      (overall_survivalF obs).get ⟨j, hj4⟩ = FloatV.nan ∧
      (cif_1F obs).get ⟨j, hj5⟩ = FloatV.nan ∧
      (cif_2F obs).get ⟨j, hj6⟩ = FloatV.nan := by
  have hn : j < (timesCol obs).length := by rw [← csh_1F_length]; exact hj1
  have hjev : j < (events_at_times obs).length := by rw [events_at_times_length]; exact hn
  have hjar : j < (at_risk obs).length := by rw [at_risk_length]; exact hn
  have hjc1 : j < (count_1 obs).length := by rw [count_1_length]; exact hn
  have hjc2 : j < (count_2 obs).length := by rw [count_2_length]; exact hn
  have hjtp1 : j < (transition_prob_1F obs).length := by
    rw [transition_prob_1F_length]; exact hn
  have hjtp2 : j < (transition_prob_2F obs).length := by
    rw [transition_prob_2F_length]; exact hn
  have hjprev : j < (previous_overall_survivalF obs).length := by
    rw [previous_overall_survivalF_length]; exact hn
  have hdropsum : ((events_at_times obs).drop i).sum = 0 := by
    have h0e : (at_risk obs)[i] = 0 := h0
    rw [at_risk_getElem obs i hi] at h0e
    exact h0e
  have hallzero : ∀ x ∈ (events_at_times obs).drop i, x = 0 :=
    sum_zero_all_zero _
      (fun x hx => events_mem_nonneg hw x (List.drop_subset i _ hx)) hdropsum
  have hev0 : (events_at_times obs)[j] = 0 := by
    apply hallzero
    have hlt : j - i < ((events_at_times obs).drop i).length := by
      rw [List.length_drop]; omega
    have he : ((events_at_times obs).drop i)[j - i] = (events_at_times obs)[j] := by
      rw [List.getElem_drop]
      congr 1
      omega
    rw [← he]
    exact List.getElem_mem hlt
  have har0 : (at_risk obs)[j] = 0 := by
    rw [at_risk_getElem obs j hjar]
    apply List.sum_eq_zero
    intro x hx
    apply hallzero
    have hdj : (events_at_times obs).drop j =
        List.drop (j - i) ((events_at_times obs).drop i) := by
      rw [List.drop_drop]
      congr 1
      omega
    rw [hdj] at hx
    exact List.drop_subset _ _ hx
  have heev : (events_at_times obs)[j] =
      countAt 0 obs (timesCol obs)[j] + countAt 1 obs (timesCol obs)[j] +
        countAt 2 obs (timesCol obs)[j] := by
    simp only [events_eq_map obs, List.getElem_map]
  have h0nn := countAt_nonneg hw 0 ((timesCol obs)[j])
  have h1nn := countAt_nonneg hw 1 ((timesCol obs)[j])
  have h2nn := countAt_nonneg hw 2 ((timesCol obs)[j])
  rw [heev] at hev0
  have hc1z : (count_1 obs)[j] = 0 := by
    simp only [count_1, List.getElem_map]
    linarith
  have hc2z : (count_2 obs)[j] = 0 := by
    simp only [count_2, List.getElem_map]
    linarith
  simp only [List.get_eq_getElem]
  have hnan1 : (csh_1F obs)[j] = FloatV.nan := by
    have e1 : (csh_1F obs)[j] =
        fdiv (.num (count_1 obs)[j]) (.num (at_risk obs)[j]) := by
      simp only [csh_1F, List.getElem_zipWith]
    rw [e1, hc1z, har0]
    simp [fdiv]
  have hnan2 : (csh_2F obs)[j] = FloatV.nan := by
    have e2 : (csh_2F obs)[j] =
        fdiv (.num (count_2 obs)[j]) (.num (at_risk obs)[j]) := by
      simp only [csh_2F, List.getElem_zipWith]
    rw [e2, hc2z, har0]
    simp [fdiv]
  have hnan3 : (conditional_survivalF obs)[j] = FloatV.nan := by
    have e3 : (conditional_survivalF obs)[j] =
        fsub (fsub (.num 1) ((csh_1F obs)[j])) ((csh_2F obs)[j]) := by
      simp only [conditional_survivalF, List.getElem_zipWith]
    rw [e3, hnan1, hnan2, fsub_nan_right]
  have hnan4 : (overall_survivalF obs)[j] = FloatV.nan := by
    obtain ⟨acc, hacc⟩ := cumprodAuxF_get (conditional_survivalF obs) (.num 1) j hj3 hj4
    simp only [List.get_eq_getElem] at hacc
    calc (overall_survivalF obs)[j]
        = fmul acc ((conditional_survivalF obs)[j]) := hacc
      _ = FloatV.nan := by rw [hnan3, fmul_nan_right]
  have hnantp1 : (transition_prob_1F obs)[j] = FloatV.nan := by
    have e4 : (transition_prob_1F obs)[j] =
        fmul ((csh_1F obs)[j]) ((previous_overall_survivalF obs)[j]) := by
      simp only [transition_prob_1F, List.getElem_zipWith]
    rw [e4, hnan1, fmul_nan_left]
  have hnantp2 : (transition_prob_2F obs)[j] = FloatV.nan := by
    have e5 : (transition_prob_2F obs)[j] =
        fmul ((csh_2F obs)[j]) ((previous_overall_survivalF obs)[j]) := by
      simp only [transition_prob_2F, List.getElem_zipWith]
    rw [e5, hnan2, fmul_nan_left]
  have hnan5 : (cif_1F obs)[j] = FloatV.nan := by
    obtain ⟨acc, hacc⟩ := cumsumAuxF_get (transition_prob_1F obs) (.num 0) j hjtp1 hj5
    simp only [List.get_eq_getElem] at hacc
    calc (cif_1F obs)[j]
        = fadd acc ((transition_prob_1F obs)[j]) := hacc
      _ = FloatV.nan := by rw [hnantp1, fadd_nan_right]
  have hnan6 : (cif_2F obs)[j] = FloatV.nan := by
    obtain ⟨acc, hacc⟩ := cumsumAuxF_get (transition_prob_2F obs) (.num 0) j hjtp2 hj6
    simp only [List.get_eq_getElem] at hacc
    calc (cif_2F obs)[j]
        = fadd acc ((transition_prob_2F obs)[j]) := hacc
      _ = FloatV.nan := by rw [hnantp2, fadd_nan_right]
  exact ⟨hnan1, hnan2, hnan3, hnan4, hnan5, hnan6⟩

/-- Witness for claim C7: times=[1,2], event_codes=[1,0], weights=[1,0];
the second row has an empty risk set, so its hazard, survival and CIF
cells are all NaN. -/
theorem claim_C7_witness :
    (csh_1F (mkObs [1, 2] [1, 0] [1, 0])).get ⟨1, by decide⟩ = FloatV.nan ∧
      (csh_2F (mkObs [1, 2] [1, 0] [1, 0])).get ⟨1, by decide⟩ = FloatV.nan ∧
      (conditional_survivalF (mkObs [1, 2] [1, 0] [1, 0])).get ⟨1, by decide⟩ = FloatV.nan ∧
      (overall_survivalF (mkObs [1, 2] [1, 0] [1, 0])).get ⟨1, by decide⟩ = FloatV.nan ∧
      (cif_1F (mkObs [1, 2] [1, 0] [1, 0])).get ⟨1, by decide⟩ = FloatV.nan ∧
      (cif_2F (mkObs [1, 2] [1, 0] [1, 0])).get ⟨1, by decide⟩ = FloatV.nan :=
  claim_C7 (mkObs [1, 2] [1, 0] [1, 0]) (by decide) 1 (by decide)
    (by norm_num [at_risk, events_at_times, count_0, count_1, count_2, timesCol,
      countAt, cumsumRev, mkObs, obsTime, obsReal, obsWeight,
      List.insertionSort, List.orderedInsert, List.dedup])
    1 (le_refl 1) (by decide) (by decide) (by decide) (by decide) (by decide) (by decide)

end WeightedState
